import Mathlib

set_option autoImplicit false

/-!
Shallow embedding of the StockMarketDemo publish/subscribe core
(src/broker.js, src/subscriber.js, src/publisher.js).

JavaScript `Map`s are modelled as insertion-ordered association lists
(`getEntry` / `setEntry` mirror `Map.get` / `Map.set`), JavaScript `Set`s as
duplicate-free insertion-ordered lists.  Delivery (`subscriber.receive(...)`
invocations made by the broker) is recorded as an explicit event list.
Prices are modelled as exact rationals, with `toFixed(2)` rounding made
explicit.
-/

namespace StockMarket

/-- Topics are opaque string identifiers (stock symbols). -/
abbrev Topic := String

/-- Subscribers are identified by their id string. -/
abbrev SubId := String

/-- A delivery event: subscriber, topic, message — one `receive` invocation. -/
abbrev Event (Msg : Type) := SubId × Topic × Msg

section AssocMap

variable {α : Type}

/-- Lookup in an insertion-ordered association list; models `Map.get`. -/
def getEntry : List (Topic × α) → Topic → Option α
  | [], _ => none
  | (k, v) :: rest, t => if k = t then some v else getEntry rest t

/-- Update in an insertion-ordered association list; models `Map.set`:
an existing key keeps its position, a new key is appended at the end. -/
def setEntry : List (Topic × α) → Topic → α → List (Topic × α)
  | [], t, v => [(t, v)]
  | (k, w) :: rest, t, v =>
      if k = t then (k, v) :: rest else (k, w) :: setEntry rest t v

end AssocMap

/-- State of `Broker` (src/broker.js): `subscriptions` is the
topic → subscriber-set map, `messageHistory` the topic → latest-message map. -/
structure BrokerState (Msg : Type) where
  subscriptions : List (Topic × List SubId)
  messageHistory : List (Topic × Msg)
  deriving DecidableEq

/-- A broker with no subscriptions and no cached messages (the constructor). -/
def emptyBus (Msg : Type) : BrokerState Msg := ⟨[], []⟩

/-- `Broker.subscribe(topic, subscriber)` (src/broker.js lines 18-31):
ensures a set exists for the topic, adds the subscriber to it, then — if the
topic has a cached message — immediately calls `subscriber.receive` with it.
Returns the new state together with the `receive` invocations performed. -/
def subscribe {Msg : Type} (st : BrokerState Msg) (t : Topic) (s : SubId) :
    BrokerState Msg × List (Event Msg) :=
  let set0 := (getEntry st.subscriptions t).getD []
  let set1 := if s ∈ set0 then set0 else set0 ++ [s]
  let st1 : BrokerState Msg := { st with subscriptions := setEntry st.subscriptions t set1 }
  match getEntry st1.messageHistory t with
  | some m => (st1, [(s, t, m)])
  | none => (st1, [])

/-- `Broker.unsubscribe(topic, subscriber)` (src/broker.js lines 38-43):
deletes the subscriber from the topic's set if the topic has an entry;
the topic's key itself is never removed from the map. -/
def unsubscribe {Msg : Type} (st : BrokerState Msg) (t : Topic) (s : SubId) :
    BrokerState Msg :=
  match getEntry st.subscriptions t with
  | some l => { st with subscriptions := setEntry st.subscriptions t (l.erase s) }
  | none => st

/-- `Broker.publish(topic, message)` (src/broker.js lines 50-63):
stores the message in `messageHistory`, then calls `receive` on every
subscriber in the topic's set (no set ⇒ no deliveries).  Returns the new
state together with the `receive` invocations performed. -/
def publish {Msg : Type} (st : BrokerState Msg) (t : Topic) (m : Msg) :
    BrokerState Msg × List (Event Msg) :=
  let st1 : BrokerState Msg := { st with messageHistory := setEntry st.messageHistory t m }
  match getEntry st1.subscriptions t with
  | some subs => (st1, subs.map (fun s => (s, t, m)))
  | none => (st1, [])

/-- `Broker.getSubscribers(topic)` (src/broker.js lines 70-75):
the ids in the topic's set, `[]` for an unknown topic. -/
def getSubscribers {Msg : Type} (st : BrokerState Msg) (t : Topic) : List SubId :=
  (getEntry st.subscriptions t).getD []

/-- `Broker.getAllTopics()` (src/broker.js lines 81-83):
the keys of the `subscriptions` map — and only those. -/
def getAllTopics {Msg : Type} (st : BrokerState Msg) : List Topic :=
  st.subscriptions.map Prod.fst

/-- A broker API call, for reasoning about arbitrary interleavings. -/
inductive Op (Msg : Type) where
  | sub (t : Topic) (s : SubId)
  | unsub (t : Topic) (s : SubId)
  | pub (t : Topic) (m : Msg)
  deriving DecidableEq

/-- Apply one broker call to the state (delivery events discarded). -/
def applyOp {Msg : Type} (st : BrokerState Msg) : Op Msg → BrokerState Msg
  | .sub t s => (subscribe st t s).1
  | .unsub t s => unsubscribe st t s
  | .pub t m => (publish st t m).1

/-- Run a sequence of broker calls from a given state. -/
def run {Msg : Type} (st : BrokerState Msg) (ops : List (Op Msg)) : BrokerState Msg :=
  ops.foldl applyOp st

/-- The message of the last `pub` to topic `t` in `ops`, starting from `acc`. -/
def lastPubFrom {Msg : Type} (acc : Option Msg) (ops : List (Op Msg)) (t : Topic) :
    Option Msg :=
  ops.foldl
    (fun a op =>
      match op with
      | .pub t' m => if t' = t then some m else a
      | _ => a) acc

/-- The message of the last `pub` to topic `t` in `ops`, if any. -/
def lastPub {Msg : Type} (ops : List (Op Msg)) (t : Topic) : Option Msg :=
  lastPubFrom none ops t

/-! ### Subscriber history (src/subscriber.js) -/

/-- One record of `Subscriber.receivedMessages`: `{topic, message, receivedAt}`. -/
structure HRec (Msg : Type) where
  topic : Topic
  message : Msg
  receivedAt : Nat
  deriving DecidableEq

/-- Effect of one `Subscriber.receive` call on the history
(src/subscriber.js lines 26-36): push the record, then if the length
exceeds 50, shift off the oldest entry. -/
def receiveHist {Msg : Type} (h : List (HRec Msg)) (r : HRec Msg) : List (HRec Msg) :=
  let h1 := h ++ [r]
  if 50 < h1.length then h1.tail else h1

/-- History after a sequence of `receive` calls, starting from history `h`.
`Subscriber.getMessageHistory` returns this list as-is. -/
def runReceives {Msg : Type} (h : List (HRec Msg)) (rs : List (HRec Msg)) :
    List (HRec Msg) :=
  rs.foldl receiveHist h

/-! ### Publisher (src/publisher.js)

Prices are exact rationals; `x.toFixed(2)` followed by `parseFloat` is
modelled as rounding to the nearest multiple of 1/100 (ties toward +∞,
matching `toFixed`).  The random draw `(Math.random() * 10 - 5) / 100` is
modelled as an arbitrary delta `d`, constrained to [-1/20, 1/20] in the
theorems that quantify over delta sequences. -/

/-- Rounding to 2 decimal places: `parseFloat(x.toFixed(2))`. -/
def round2 (x : ℚ) : ℚ := (round (x * 100) : ℤ) / 100

/-- The message built by `Publisher.publishUpdate` (src/publisher.js lines 47-52). -/
structure PMsg where
  symbol : Topic
  price : ℚ
  timestamp : Nat
  change : ℚ
  deriving DecidableEq

/-- `Publisher.publishUpdate()` (src/publisher.js lines 42-55) with the random
delta `d` and wall-clock timestamp `ts` made explicit: the new current price
is `max 0.01 (currentPrice * (1 + d))`, and the published message carries that
price rounded to 2 decimals and the delta (as a percentage) rounded to
2 decimals.  Returns the new current price and the published message. -/
def publishUpdate (currentPrice : ℚ) (sym : Topic) (d : ℚ) (ts : Nat) : ℚ × PMsg :=
  let p1 := max (1 / 100) (currentPrice * (1 + d))
  (p1, ⟨sym, round2 p1, ts, round2 (d * 100)⟩)

/-- Repeated `publishUpdate` calls, one per (delta, timestamp) pair;
returns the final current price and all published messages in order. -/
def runUpdates (p : ℚ) (sym : Topic) : List (ℚ × Nat) → ℚ × List PMsg
  | [] => (p, [])
  | (d, ts) :: rest =>
      let r := publishUpdate p sym d ts
      let r2 := runUpdates r.1 sym rest
      (r2.1, r.2 :: r2.2)

/-- `Publisher.setPrice(price)` (src/publisher.js lines 61-64): overwrites
`currentPrice` with `p` (discarding `oldPrice`), then calls `publishUpdate`
once — which applies the random walk to `p`.  Returns the new current price
and the list of messages published by this call. -/
def setPrice (oldPrice p : ℚ) (sym : Topic) (d : ℚ) (ts : Nat) : ℚ × List PMsg :=
  let r := publishUpdate p sym d ts
  (r.1, [r.2])

/-! ### Fan-out with faulting notification callbacks

`Subscriber.receive` (src/subscriber.js lines 26-44) appends to the history
and then invokes `this.updateCallback`; neither the callback invocation nor
the broker's `subscribers.forEach` loop (src/broker.js lines 57-59) is
wrapped in try/catch, so an exception thrown by one subscriber's callback
propagates and aborts the remaining iteration.  `faults s` says whether
subscriber `s`'s attached callback throws. -/

/-- The broker's fan-out loop over the subscriber list: each subscriber's
`receive` is invoked in order; if its callback throws, iteration stops.
Returns the `receive` invocations that happened and whether the loop was
aborted by an exception. -/
def fanout {Msg : Type} (faults : SubId → Bool) :
    List SubId → Topic → Msg → List (Event Msg) × Bool
  | [], _, _ => ([], false)
  | s :: rest, t, m =>
      if faults s then ([(s, t, m)], true)
      else
        let r := fanout faults rest t m
        ((s, t, m) :: r.1, r.2)

/-- `Broker.publish` when subscribers' callbacks may throw: the cache is
updated first, then the fan-out loop runs until completion or a fault. -/
def publishF {Msg : Type} (faults : SubId → Bool) (st : BrokerState Msg)
    (t : Topic) (m : Msg) : BrokerState Msg × List (Event Msg) × Bool :=
  let st1 : BrokerState Msg := { st with messageHistory := setEntry st.messageHistory t m }
  match getEntry st1.subscriptions t with
  | some subs => (st1, fanout faults subs t m)
  | none => (st1, ([], false))

/-! ### Re-entrant notification callbacks

For claims about `subscribe`/`unsubscribe` performed from inside a
subscriber's `receive` callback during an in-flight fan-out.  The broker's
`Set` is modelled as ECMAScript `[[SetData]]`: a slot list where `delete`
empties a slot in place and `add` appends, so that `Set.prototype.forEach`
— which walks the live slot list by index, re-checking the length each
step — visits entries added during iteration and skips entries deleted
before being visited.  Each subscriber's callback is a straight-line
program of broker calls; execution carries fuel because such programs can
re-enter the broker unboundedly. -/

/-- One broker call a notification callback can make. -/
inductive Action where
  | actSub (t : Topic) (s : SubId)
  | actUnsub (t : Topic) (s : SubId)
  deriving DecidableEq

/-- Broker state for the re-entrant model: slot-list subscriber sets,
latest-message cache, and the global log of `receive` invocations. -/
structure RState (Msg : Type) where
  subs : List (Topic × List (Option SubId))
  hist : List (Topic × Msg)
  log : List (Event Msg)
  deriving DecidableEq

/-- `Set.add`: append the value unless it is already present. -/
def slotAdd (l : List (Option SubId)) (s : SubId) : List (Option SubId) :=
  if some s ∈ l then l else l ++ [some s]

/-- `Set.delete`: empty the value's slot in place. -/
def slotDel (l : List (Option SubId)) (s : SubId) : List (Option SubId) :=
  l.map (fun x => if x = some s then none else x)

/-- A call in the re-entrant interpreter: the three broker entry points, a
`receive` invocation, the fan-out loop at slot index `i`, and sequencing. -/
inductive RCall (Msg : Type) where
  | rsub (t : Topic) (s : SubId)
  | runsub (t : Topic) (s : SubId)
  | rpub (t : Topic) (m : Msg)
  | rrecv (s : SubId) (t : Topic) (m : Msg)
  | rloop (t : Topic) (m : Msg) (i : Nat)
  | rseq (cs : List (RCall Msg))

/-- View a callback action as an interpreter call. -/
def actToCall {Msg : Type} : Action → RCall Msg
  | .actSub t s => .rsub t s
  | .actUnsub t s => .runsub t s

/-- Fueled interpreter for broker calls with re-entrant callbacks, mirroring
src/broker.js and src/subscriber.js: `rsub` adds to the slot list then
replays the cached message if present; `runsub` empties the slot; `rpub`
updates the cache then runs the fan-out loop from index 0; `rloop` re-reads
the live slot list each step (ECMAScript `forEach`); `rrecv` logs the
invocation then runs subscriber `s`'s callback program `progs s`. -/
def exec {Msg : Type} (progs : SubId → List Action) :
    Nat → RState Msg → RCall Msg → RState Msg
  | 0, st, _ => st
  | Nat.succ n, st, c =>
      match c with
      | .rsub t s =>
          let l := (getEntry st.subs t).getD []
          let st1 : RState Msg := { st with subs := setEntry st.subs t (slotAdd l s) }
          match getEntry st1.hist t with
          | some m => exec progs n st1 (.rrecv s t m)
          | none => st1
      | .runsub t s =>
          match getEntry st.subs t with
          | some l => { st with subs := setEntry st.subs t (slotDel l s) }
          | none => st
      | .rpub t m =>
          let st1 : RState Msg := { st with hist := setEntry st.hist t m }
          match getEntry st1.subs t with
          | some _ => exec progs n st1 (.rloop t m 0)
          | none => st1
      | .rloop t m i =>
          if i < ((getEntry st.subs t).getD []).length then
            let st1 :=
              match ((getEntry st.subs t).getD [])[i]? with
              | some (some s) => exec progs n st (.rrecv s t m)
              | _ => st
            exec progs n st1 (.rloop t m (i + 1))
          else st
      | .rrecv s t m =>
          let st1 : RState Msg := { st with log := st.log ++ [(s, t, m)] }
          exec progs n st1 (.rseq ((progs s).map actToCall))
      | .rseq [] => st
      | .rseq (c0 :: cs) => exec progs n (exec progs n st c0) (.rseq cs)

/-! ### Concrete states used by counterexamples and witnesses -/

/-- Bus with subscribers "a" and "b" on topic "T". -/
def c2State : BrokerState Nat := run (emptyBus Nat) [Op.sub "T" "a", Op.sub "T" "b"]

/-- Callback programs: subscriber "A" subscribes "B" to "T" from inside its
`receive`; everyone else does nothing. -/
def c3Progs : SubId → List Action :=
  fun s => if s = "A" then [Action.actSub "T" "B"] else []

/-- Re-entrant-model bus with exactly subscriber "A" on topic "T",
empty cache, empty log. -/
def c3Start : RState Nat := ⟨[("T", [some "A"])], [], []⟩

/-- Bus where "s" subscribed to "A" and message 5 was then published on "A". -/
def c7State : BrokerState Nat := run (emptyBus Nat) [Op.sub "A" "s", Op.pub "A" 5]

/-- 51 distinct history records, for exercising the 50-record bound. -/
def rs51 : List (HRec Nat) := (List.range 51).map (fun i => ⟨"A", i, i⟩)

/-- Well-formedness: every topic's subscriber list is duplicate-free
(the JavaScript `Set` invariant). -/
def WF {Msg : Type} (st : BrokerState Msg) : Prop :=
  ∀ t, (getSubscribers st t).Nodup

/-! ## Association-list lemmas -/

section AssocLemmas

variable {α : Type}

@[simp] theorem getEntry_setEntry_self (m : List (Topic × α)) (t : Topic) (v : α) :
    getEntry (setEntry m t v) t = some v := by
  induction m with
  | nil => simp [getEntry, setEntry]
  | cons p rest ih =>
      obtain ⟨k, w⟩ := p
      by_cases h : k = t <;> simp [getEntry, setEntry, h, ih]

theorem getEntry_setEntry_ne (m : List (Topic × α)) (t t' : Topic) (v : α)
    (h : t' ≠ t) : getEntry (setEntry m t v) t' = getEntry m t' := by
  have ht : t ≠ t' := fun e => h e.symm
  induction m with
  | nil => simp [getEntry, setEntry, ht]
  | cons p rest ih =>
      obtain ⟨k, w⟩ := p
      by_cases hk : k = t
      · subst hk
        simp [getEntry, setEntry, ht]
      · simp [getEntry, setEntry, hk, ih]

theorem mem_keys_setEntry (m : List (Topic × α)) (t t' : Topic) (v : α) :
    t' ∈ (setEntry m t v).map Prod.fst ↔ t' ∈ m.map Prod.fst ∨ t' = t := by
  induction m with
  | nil => simp [setEntry]
  | cons p rest ih =>
      obtain ⟨k, w⟩ := p
      by_cases h : k = t
      · subst h; simp [setEntry]; tauto
      · simp [setEntry, h, ih]; tauto

theorem keys_setEntry_of_mem (m : List (Topic × α)) (t : Topic) (v w : α)
    (h : getEntry m t = some w) :
    (setEntry m t v).map Prod.fst = m.map Prod.fst := by
  induction m with
  | nil => simp [getEntry] at h
  | cons p rest ih =>
      obtain ⟨k, u⟩ := p
      by_cases hk : k = t
      · simp [setEntry, hk]
      · simp [getEntry, hk] at h
        simp [setEntry, hk, ih h]

theorem setEntry_getEntry_self (m : List (Topic × α)) (t : Topic) (v : α)
    (h : getEntry m t = some v) : setEntry m t v = m := by
  induction m with
  | nil => simp [getEntry] at h
  | cons p rest ih =>
      obtain ⟨k, u⟩ := p
      by_cases hk : k = t
      · simp [getEntry, hk] at h
        simp [setEntry, hk, h]
      · simp [getEntry, hk] at h
        simp [setEntry, hk, ih h]

end AssocLemmas

/-! ## Framing lemmas for the broker operations -/

section Framing

variable {Msg : Type}

theorem subscribe_fst_messageHistory (st : BrokerState Msg) (t : Topic) (s : SubId) :
    (subscribe st t s).1.messageHistory = st.messageHistory := by
  cases h : getEntry st.messageHistory t <;> simp [subscribe, h]

theorem subscribe_fst_subscriptions (st : BrokerState Msg) (t : Topic) (s : SubId) :
    (subscribe st t s).1.subscriptions =
      setEntry st.subscriptions t
        (if s ∈ (getEntry st.subscriptions t).getD []
         then (getEntry st.subscriptions t).getD []
         else (getEntry st.subscriptions t).getD [] ++ [s]) := by
  cases h : getEntry st.messageHistory t <;> simp [subscribe, h]

theorem subscribe_events (st : BrokerState Msg) (t : Topic) (s : SubId) :
    (subscribe st t s).2 =
      (getEntry st.messageHistory t).elim [] (fun m => [(s, t, m)]) := by
  cases h : getEntry st.messageHistory t <;> simp [subscribe, h]

theorem unsubscribe_messageHistory (st : BrokerState Msg) (t : Topic) (s : SubId) :
    (unsubscribe st t s).messageHistory = st.messageHistory := by
  cases h : getEntry st.subscriptions t <;> simp [unsubscribe, h]

theorem publish_fst_messageHistory (st : BrokerState Msg) (t : Topic) (m : Msg) :
    (publish st t m).1.messageHistory = setEntry st.messageHistory t m := by
  cases h : getEntry st.subscriptions t <;> simp [publish, h]

theorem publish_fst_subscriptions (st : BrokerState Msg) (t : Topic) (m : Msg) :
    (publish st t m).1.subscriptions = st.subscriptions := by
  cases h : getEntry st.subscriptions t <;> simp [publish, h]

theorem publish_events (st : BrokerState Msg) (t : Topic) (m : Msg) :
    (publish st t m).2 = (getSubscribers st t).map (fun s => (s, t, m)) := by
  cases h : getEntry st.subscriptions t <;> simp [publish, getSubscribers, h]

end Framing

/-! ## The latest-message cache over arbitrary interleavings -/

section CacheRun

variable {Msg : Type}

theorem messageHistory_run (st : BrokerState Msg) (ops : List (Op Msg)) (t : Topic) :
    getEntry (run st ops).messageHistory t =
      lastPubFrom (getEntry st.messageHistory t) ops t := by
  induction ops generalizing st with
  | nil => rfl
  | cons op ops ih =>
      have hrun : run st (op :: ops) = run (applyOp st op) ops := rfl
      cases op with
      | sub t0 s0 =>
          rw [hrun, ih]
          simp [lastPubFrom, applyOp, subscribe_fst_messageHistory]
      | unsub t0 s0 =>
          rw [hrun, ih]
          simp [lastPubFrom, applyOp, unsubscribe_messageHistory]
      | pub t0 m0 =>
          rw [hrun, ih]
          by_cases h : t0 = t
          · subst h
            simp [lastPubFrom, applyOp, publish_fst_messageHistory]
          · simp [lastPubFrom, applyOp, publish_fst_messageHistory, h,
              getEntry_setEntry_ne _ _ _ _ (fun e => h e.symm)]

end CacheRun

/-! ## The topic registry over arbitrary interleavings -/

section TopicsRun

variable {Msg : Type}

theorem mem_getAllTopics_subscribe (st : BrokerState Msg) (t t' : Topic) (s : SubId) :
    t' ∈ getAllTopics (subscribe st t s).1 ↔ t' ∈ getAllTopics st ∨ t' = t := by
  rw [getAllTopics, subscribe_fst_subscriptions, mem_keys_setEntry, getAllTopics]

theorem getAllTopics_unsubscribe (st : BrokerState Msg) (t : Topic) (s : SubId) :
    getAllTopics (unsubscribe st t s) = getAllTopics st := by
  cases h : getEntry st.subscriptions t with
  | none => simp [unsubscribe, h]
  | some l =>
      simp [unsubscribe, h, getAllTopics, keys_setEntry_of_mem _ _ _ _ h]

theorem getAllTopics_publish (st : BrokerState Msg) (t : Topic) (m : Msg) :
    getAllTopics (publish st t m).1 = getAllTopics st := by
  rw [getAllTopics, publish_fst_subscriptions, getAllTopics]

theorem mem_getAllTopics_run (st : BrokerState Msg) (ops : List (Op Msg)) (t : Topic) :
    t ∈ getAllTopics (run st ops) ↔
      t ∈ getAllTopics st ∨ ∃ s, Op.sub t s ∈ ops := by
  induction ops generalizing st with
  | nil => simp [run]
  | cons op ops ih =>
      have hrun : run st (op :: ops) = run (applyOp st op) ops := rfl
      rw [hrun, ih]
      cases op with
      | sub t0 s0 =>
          simp only [applyOp, mem_getAllTopics_subscribe, List.mem_cons, Op.sub.injEq]
          constructor
          · rintro (( h | rfl) | ⟨s, hs⟩)
            · exact Or.inl h
            · exact Or.inr ⟨s0, Or.inl ⟨rfl, rfl⟩⟩
            · exact Or.inr ⟨s, Or.inr hs⟩
          · rintro (h | ⟨s, (⟨rfl, rfl⟩ | hs)⟩)
            · exact Or.inl (Or.inl h)
            · exact Or.inl (Or.inr rfl)
            · exact Or.inr ⟨s, hs⟩
      | unsub t0 s0 =>
          simp [applyOp, getAllTopics_unsubscribe]
      | pub t0 m0 =>
          simp [applyOp, getAllTopics_publish]

end TopicsRun

/-! ## Subscriber sets over arbitrary interleavings -/

section SetRun

variable {Msg : Type}

theorem getSubscribers_subscribe (st : BrokerState Msg) (t t' : Topic) (s : SubId) :
    getSubscribers (subscribe st t s).1 t' =
      if t' = t
      then (if s ∈ getSubscribers st t
            then getSubscribers st t else getSubscribers st t ++ [s])
      else getSubscribers st t' := by
  rw [getSubscribers, subscribe_fst_subscriptions]
  by_cases h : t' = t
  · subst h
    simp [getSubscribers]
  · simp [h, getEntry_setEntry_ne _ _ _ _ h, getSubscribers]

theorem getSubscribers_unsubscribe (st : BrokerState Msg) (t t' : Topic) (s : SubId) :
    getSubscribers (unsubscribe st t s) t' =
      if t' = t then (getSubscribers st t).erase s else getSubscribers st t' := by
  cases hg : getEntry st.subscriptions t with
  | none =>
      by_cases h : t' = t
      · subst h
        simp [unsubscribe, hg, getSubscribers]
      · simp [unsubscribe, hg, h]
  | some l =>
      by_cases h : t' = t
      · subst h
        simp [unsubscribe, hg, getSubscribers]
      · simp [unsubscribe, hg, h, getSubscribers,
          getEntry_setEntry_ne _ _ _ _ h]

theorem getSubscribers_publish (st : BrokerState Msg) (t t' : Topic) (m : Msg) :
    getSubscribers (publish st t m).1 t' = getSubscribers st t' := by
  rw [getSubscribers, publish_fst_subscriptions, getSubscribers]

theorem wf_applyOp (st : BrokerState Msg) (op : Op Msg) (h : WF st) :
    WF (applyOp st op) := by
  cases op with
  | sub t s =>
      intro t'
      rw [applyOp, getSubscribers_subscribe]
      by_cases ht : t' = t
      · simp only [ht, if_pos rfl]
        by_cases hs : s ∈ getSubscribers st t
        · simpa [hs] using h t
        · simp only [hs, if_neg]
          simp [List.nodup_append, h t, hs]
      · simpa [ht] using h t'
  | unsub t s =>
      intro t'
      rw [applyOp, getSubscribers_unsubscribe]
      by_cases ht : t' = t
      · simpa [ht] using (h t).erase s
      · simpa [ht] using h t'
  | pub t m =>
      intro t'
      rw [applyOp, getSubscribers_publish]
      exact h t'

theorem wf_run (st : BrokerState Msg) (ops : List (Op Msg)) (h : WF st) :
    WF (run st ops) := by
  induction ops generalizing st with
  | nil => exact h
  | cons op ops ih => exact ih (applyOp st op) (wf_applyOp st op h)

theorem wf_emptyBus : WF (emptyBus Msg) := by
  intro t
  simp [emptyBus, getSubscribers, getEntry]

/-- Among the fan-out events of one publish, a subscriber occurs exactly once
as recipient when it is in the (duplicate-free) subscriber list, else not at
all. -/
theorem countP_fanout_events {Msg : Type} (l : List SubId) (hl : l.Nodup)
    (s : SubId) (t : Topic) (m : Msg) :
    ((l.map (fun x => (x, t, m))).countP
        (fun e : Event Msg => decide (e.1 = s))) =
      if s ∈ l then 1 else 0 := by
  induction l with
  | nil => simp
  | cons x xs ih =>
      rw [List.nodup_cons] at hl
      by_cases hx : x = s
      · subst hx
        have hnot : x ∉ xs := hl.1
        simp [List.countP_cons, ih hl.2, hnot]
      · have hsx : ¬s = x := fun e => hx e.symm
        simp [List.countP_cons, ih hl.2, hx, hsx]

end SetRun

/-! ## Claim C1 -/

/-- C1 counterexample: on a fresh bus, `publish("A", 0)` on the
never-subscribed topic "A" does not make "A" a member of `getAllTopics()` —
`publish` updates only `messageHistory`, never the `subscriptions` map whose
keys `getAllTopics` returns. -/
theorem c1_counterexample :
    "A" ∉ getAllTopics ((publish (emptyBus Nat) "A" 0).1) := by decide

/-- C1 (amended): for every interleaving of subscribe, unsubscribe and
publish calls on a fresh bus, `getAllTopics()` returns exactly the topics
that have ever been subscribed to; a topic that only ever received a publish
gets a cache entry but is not listed. -/
theorem c1_amended_topics {Msg : Type} (ops : List (Op Msg)) (t : Topic) :
    t ∈ getAllTopics (run (emptyBus Msg) ops) ↔ ∃ s, Op.sub t s ∈ ops := by
  rw [mem_getAllTopics_run]
  simp [emptyBus, getAllTopics]

/-! ## Claim C10 -/

/-- C10: topic registry entries are never removed — if `t` is in
`getAllTopics`, it stays there after any further sequence of calls
(including unsubscribing every subscriber of `t`), and in particular after
`subscribe(t, s)` the topic `t` is in `getAllTopics` forever. -/
theorem c10_topics_monotone {Msg : Type} (st : BrokerState Msg)
    (ops : List (Op Msg)) (t : Topic) (s : SubId) :
    (t ∈ getAllTopics st → t ∈ getAllTopics (run st ops)) ∧
    t ∈ getAllTopics (run (applyOp st (Op.sub t s)) ops) := by
  constructor
  · intro h
    exact (mem_getAllTopics_run st ops t).2 (Or.inl h)
  · refine (mem_getAllTopics_run _ ops t).2 (Or.inl ?_)
    exact (mem_getAllTopics_subscribe st t t s).2 (Or.inr rfl)

/-- C10 witness: after subscribing "x" to "A" and then unsubscribing it
again (leaving an empty set), "A" is still a known topic. -/
theorem c10_witness :
    "A" ∈ getAllTopics (run (run (emptyBus Nat) [Op.sub "A" "x"]) [Op.unsub "A" "x"]) ∧
    "A" ∈ getAllTopics (run (applyOp (emptyBus Nat) (Op.sub "A" "x")) [Op.unsub "A" "x"]) :=
  ⟨(c10_topics_monotone (run (emptyBus Nat) [Op.sub "A" "x"]) [Op.unsub "A" "x"] "A" "x").1
      (by decide),
   (c10_topics_monotone (emptyBus Nat) [Op.unsub "A" "x"] "A" "x").2⟩

/-! ## Claim C5 -/

/-- C5: for every interleaving of prior calls, if at least one publish to
topic `t` has occurred then `subscribe(t, s)` synchronously delivers exactly
one `receive(t, m)` to `s`, where `m` is the most recently published message
for `t`; if `t` has never been published to, `subscribe(t, s)` triggers no
`receive` call. -/
theorem c5_late_join_replay {Msg : Type} (ops : List (Op Msg)) (t : Topic) (s : SubId) :
    (∀ m : Msg, lastPub ops t = some m →
      (subscribe (run (emptyBus Msg) ops) t s).2 = [(s, t, m)]) ∧
    (lastPub ops t = none →
      (subscribe (run (emptyBus Msg) ops) t s).2 = []) := by
  have hh : getEntry (run (emptyBus Msg) ops).messageHistory t = lastPub ops t := by
    rw [messageHistory_run]
    rfl
  constructor
  · intro m hm
    rw [subscribe_events, hh, hm]
    rfl
  · intro hm
    rw [subscribe_events, hh, hm]
    rfl

/-- C5 witness: after `publish("A", 7)` a new subscriber gets exactly the
replay `("s", "A", 7)`; on a fresh bus a subscribe triggers nothing. -/
theorem c5_witness :
    (subscribe (run (emptyBus Nat) [Op.pub "A" 7]) "A" "s").2 = [("s", "A", 7)] ∧
    (subscribe (run (emptyBus Nat) []) "A" "s").2 = [] :=
  ⟨(c5_late_join_replay [Op.pub "A" 7] "A" "s").1 7 (by decide),
   (c5_late_join_replay ([] : List (Op Nat)) "A" "s").2 (by decide)⟩

/-! ## Claim C6 -/

/-- C6: for every reachable broker state, `publish(t, m)` overwrites `t`'s
cache entry with `m` (also when `t` has zero subscribers); its fan-out is
exactly one `receive(t, m)` per member of `t`'s current subscriber set —
subscribers not in the set receive none — and the cache always equals the
message of the last publish for each topic. -/
theorem c6_publish_fanout {Msg : Type} (ops : List (Op Msg)) (t : Topic) (m : Msg) :
    getEntry (publish (run (emptyBus Msg) ops) t m).1.messageHistory t = some m ∧
    (publish (run (emptyBus Msg) ops) t m).2 =
      (getSubscribers (run (emptyBus Msg) ops) t).map (fun s => (s, t, m)) ∧
    (∀ s : SubId,
      ((publish (run (emptyBus Msg) ops) t m).2.countP
          (fun e : Event Msg => decide (e.1 = s))) =
        if s ∈ getSubscribers (run (emptyBus Msg) ops) t then 1 else 0) ∧
    (∀ t' : Topic,
      getEntry (run (emptyBus Msg) ops).messageHistory t' = lastPub ops t') := by
  refine ⟨?_, publish_events _ t m, ?_, ?_⟩
  · rw [publish_fst_messageHistory, getEntry_setEntry_self]
  · intro s
    rw [publish_events]
    exact countP_fanout_events _ (wf_run (emptyBus Msg) ops wf_emptyBus t) s t m
  · intro t'
    rw [messageHistory_run]
    rfl

/-! ## Claim C7 -/

/-- C7 counterexample: in the bus where "s" subscribed to "A" and message 5
was then published on "A", subscribing "s" to "A" again — "s" is already
registered — re-triggers the cached-message replay: the repeated subscribe
performs a `receive` call, because src/broker.js replays the cache on every
subscribe call without checking whether the subscriber was already in the
set. -/
theorem c7_counterexample :
    "s" ∈ getSubscribers c7State "A" ∧ (subscribe c7State "A" "s").2 ≠ [] := by
  decide

/-- C7 (amended): re-subscribing an already-registered subscriber is
silently idempotent on the broker state (the subscriber set — indeed the
whole state — is unchanged, and it is not an error), but it re-triggers the
cached-message replay: the already-registered subscriber receives the cached
message again whenever one exists. -/
theorem c7_amended_resubscribe {Msg : Type} (st : BrokerState Msg) (t : Topic) (s : SubId)
    (h : s ∈ getSubscribers st t) :
    (subscribe st t s).1 = st ∧
    (subscribe st t s).2 =
      (getEntry st.messageHistory t).elim [] (fun m => [(s, t, m)]) := by
  refine ⟨?_, subscribe_events st t s⟩
  have hsome : ∃ l, getEntry st.subscriptions t = some l ∧ s ∈ l := by
    rw [getSubscribers] at h
    cases hg : getEntry st.subscriptions t with
    | none => rw [hg] at h; simp at h
    | some l => rw [hg] at h; exact ⟨l, rfl, h⟩
  obtain ⟨l, hg, hs⟩ := hsome
  have h1 : (subscribe st t s).1.subscriptions = st.subscriptions := by
    rw [subscribe_fst_subscriptions, hg]
    simp only [Option.getD_some]
    rw [if_pos hs]
    exact setEntry_getEntry_self _ _ _ hg
  have h2 : (subscribe st t s).1.messageHistory = st.messageHistory :=
    subscribe_fst_messageHistory st t s
  calc (subscribe st t s).1
      = ⟨(subscribe st t s).1.subscriptions, (subscribe st t s).1.messageHistory⟩ := rfl
    _ = ⟨st.subscriptions, st.messageHistory⟩ := by rw [h1, h2]
    _ = st := rfl

/-- C7 witness: re-subscribing "s" to "A" on the bus `c7State` leaves the
state unchanged and replays the cached message 5. -/
theorem c7_amended_witness :
    "s" ∈ getSubscribers c7State "A" ∧
    ((subscribe c7State "A" "s").1 = c7State ∧
     (subscribe c7State "A" "s").2 =
       (getEntry c7State.messageHistory "A").elim [] (fun m => [("s", "A", m)])) :=
  ⟨by decide, c7_amended_resubscribe c7State "A" "s" (by decide)⟩

/-! ## Claim C8 -/

section History

variable {Msg : Type}

theorem receiveHist_eq_drop (h : List (HRec Msg)) (r : HRec Msg)
    (hle : h.length ≤ 50) :
    receiveHist h r = (h ++ [r]).drop ((h ++ [r]).length - 50) := by
  simp only [receiveHist, List.length_append, List.length_singleton]
  by_cases hl : 50 < h.length + 1
  · rw [if_pos hl, ← List.drop_one (h ++ [r])]
    congr 1
    omega
  · rw [if_neg hl]
    have h0 : h.length + 1 - 50 = 0 := by omega
    rw [h0, List.drop_zero]

theorem receiveHist_length_le (h : List (HRec Msg)) (r : HRec Msg)
    (hle : h.length ≤ 50) : (receiveHist h r).length ≤ 50 := by
  rw [receiveHist_eq_drop h r hle, List.length_drop]
  simp only [List.length_append, List.length_singleton]
  omega

theorem runReceives_eq_drop (rs : List (HRec Msg)) (h : List (HRec Msg))
    (hle : h.length ≤ 50) :
    runReceives h rs = (h ++ rs).drop ((h ++ rs).length - 50) := by
  induction rs generalizing h with
  | nil =>
      have h0 : h.length - 50 = 0 := by omega
      simp only [runReceives, List.foldl_nil, List.append_nil, h0, List.drop_zero]
  | cons r rs ih =>
      have hstep : runReceives h (r :: rs) = runReceives (receiveHist h r) rs := rfl
      rw [hstep, ih (receiveHist h r) (receiveHist_length_le h r hle),
        receiveHist_eq_drop h r hle]
      have hd1 : (h ++ [r]).length - 50 ≤ (h ++ [r]).length := Nat.sub_le _ _
      rw [← List.drop_append_of_le_length hd1, List.drop_drop]
      have hassoc : (h ++ [r]) ++ rs = h ++ (r :: rs) := by simp
      rw [hassoc]
      congr 1
      simp only [List.length_drop, List.length_append, List.length_singleton,
        List.length_cons, List.length_nil]
      omega

/-- C8: after more than 50 `receive` calls on one subscriber, the message
history is exactly the last 50 received records, in arrival (FIFO) order;
and each `receive` call preserves the at-most-50 bound. -/
theorem c8_history_bound {Msg0 : Type} (rs : List (HRec Msg0)) (hN : 50 < rs.length) :
    runReceives [] rs = rs.drop (rs.length - 50) ∧
    (runReceives ([] : List (HRec Msg0)) rs).length = 50 ∧
    (∀ (h : List (HRec Msg0)) (r : HRec Msg0),
      h.length ≤ 50 → (receiveHist h r).length ≤ 50) := by
  have hmain := runReceives_eq_drop rs ([] : List (HRec Msg0)) (by simp)
  simp only [List.nil_append] at hmain
  refine ⟨hmain, ?_, fun h r hle => receiveHist_length_le h r hle⟩
  rw [hmain, List.length_drop]
  omega

/-- C8 witness: 51 receive calls leave exactly the last 50 records. -/
theorem c8_witness :
    50 < rs51.length ∧
    (runReceives [] rs51 = rs51.drop (rs51.length - 50) ∧
     (runReceives ([] : List (HRec Nat)) rs51).length = 50 ∧
     (∀ (h : List (HRec Nat)) (r : HRec Nat),
       h.length ≤ 50 → (receiveHist h r).length ≤ 50)) :=
  ⟨by decide, c8_history_bound rs51 (by decide)⟩

end History

/-! ## Claims C9 and C4 -/

theorem le_round2 (x : ℚ) (h : 1 / 100 ≤ x) : 1 / 100 ≤ round2 x := by
  have h1 : (1 : ℚ) ≤ x * 100 := by linarith
  have h2 : (1 : ℤ) ≤ round (x * 100) := by
    calc (1 : ℤ) = round (1 : ℚ) := round_one.symm
      _ ≤ round (x * 100) := by
          rw [round_eq, round_eq]
          exact Int.floor_mono (by linarith)
  have h3 : (1 : ℚ) ≤ (round (x * 100) : ℚ) := by exact_mod_cast h2
  rw [round2]
  linarith

theorem publishUpdate_price (p : ℚ) (sym : Topic) (d : ℚ) (ts : Nat) :
    (publishUpdate p sym d ts).2.price = round2 (max (1 / 100) (p * (1 + d))) := rfl

/-- C9: no published price is ever below the 0.01 floor — for any starting
price and any sequence of percentage deltas in [-5%, +5%], every message
produced by repeated `publishUpdate` calls has price ≥ 0.01 — and a negative
price passed to `setPrice` is clamped: the resulting published price is
exactly 0.01 rather than an error. -/
theorem c9_price_floor (p0 : ℚ) (sym : Topic) (ds : List (ℚ × Nat))
    (hd : ∀ x ∈ ds, -(1 / 20) ≤ x.1 ∧ x.1 ≤ 1 / 20) :
    (∀ msg ∈ (runUpdates p0 sym ds).2, 1 / 100 ≤ msg.price) ∧
    (∀ (old p d : ℚ) (ts : Nat), p ≤ 0 → -(1 / 20) ≤ d → d ≤ 1 / 20 →
      ∀ msg ∈ (setPrice old p sym d ts).2, msg.price = 1 / 100) := by
  constructor
  · clear hd
    induction ds generalizing p0 with
    | nil => simp [runUpdates]
    | cons x rest ih =>
        obtain ⟨d, ts⟩ := x
        intro msg hm
        rw [runUpdates] at hm
        rcases List.mem_cons.1 hm with h0 | h0
        · subst h0
          exact le_round2 _ (le_max_left _ _)
        · exact ih _ msg h0
  · intro old p d ts hp hd1 hd2 msg hm
    have h1d : (0 : ℚ) ≤ 1 + d := by linarith
    have hpd : p * (1 + d) ≤ 0 := mul_nonpos_iff.2 (Or.inr ⟨hp, h1d⟩)
    have hmax : max (1 / 100 : ℚ) (p * (1 + d)) = 1 / 100 :=
      max_eq_left (by linarith)
    have hmm : msg = (publishUpdate p sym d ts).2 := by
      simpa [setPrice] using hm
    rw [hmm, publishUpdate_price, hmax]
    rw [round2]
    norm_num [round_eq]

/-- C9 witness: one +5% step from price 100 keeps the floor, and
`setPrice(-5)` publishes exactly 0.01. -/
theorem c9_witness :
    (∀ x ∈ [((1 : ℚ) / 20, (0 : Nat))], -(1 / 20) ≤ x.1 ∧ x.1 ≤ 1 / 20) ∧
    ((∀ msg ∈ (runUpdates 100 "A" [((1 : ℚ) / 20, (0 : Nat))]).2, 1 / 100 ≤ msg.price) ∧
     (∀ (old p d : ℚ) (ts : Nat), p ≤ 0 → -(1 / 20) ≤ d → d ≤ 1 / 20 →
       ∀ msg ∈ (setPrice old p "A" d ts).2, msg.price = 1 / 100)) :=
  ⟨by norm_num, c9_price_floor 100 "A" [((1 : ℚ) / 20, (0 : Nat))] (by norm_num)⟩

/-- C4 counterexample: `setPrice(100)` with random delta +5% publishes price
105, not 100 — `setPrice` does not bypass the random walk: `publishUpdate`
applies the fresh random delta to the newly set price before publishing. -/
theorem c4_counterexample :
    (setPrice 0 100 "A" (1 / 20) 0).2.map PMsg.price ≠ [100] ∧
    (setPrice 0 100 "A" (1 / 20) 0).2.map PMsg.price = [105] := by
  have hmax : max ((1 : ℚ) / 100) (100 * (1 + 1 / 20)) = 105 := by
    rw [max_eq_right] <;> norm_num
  have hp : (setPrice 0 100 "A" (1 / 20) 0).2.map PMsg.price = [105] := by
    show [round2 (max ((1 : ℚ) / 100) (100 * (1 + 1 / 20)))] = [105]
    rw [hmax]
    simp only [round2]
    norm_num [round_eq]
  refine ⟨?_, hp⟩
  rw [hp]
  intro hc
  have h2 : (105 : ℚ) = 100 := by injection hc
  norm_num at h2

/-- C4 (amended): `setPrice(p)` overrides the current price to `p` and
immediately publishes exactly one update, but the update is computed by the
random percentage walk applied to `p`: its price is
`round2 (max 0.01 (p * (1 + d)))` for the fresh random delta `d`, not `p`
itself. -/
theorem c4_amended_setprice (old p : ℚ) (sym : Topic) (d : ℚ) (ts : Nat) :
    ((setPrice old p sym d ts).2).length = 1 ∧
    (∀ msg ∈ (setPrice old p sym d ts).2,
      msg.price = round2 (max (1 / 100) (p * (1 + d))) ∧ msg.symbol = sym) ∧
    (setPrice old p sym d ts).1 = max (1 / 100) (p * (1 + d)) := by
  refine ⟨rfl, ?_, rfl⟩
  intro msg hm
  have hmm : msg = (publishUpdate p sym d ts).2 := by
    simpa [setPrice] using hm
  subst hmm
  exact ⟨rfl, rfl⟩

/-- C4 witness: the amended statement at `setPrice(100)` with delta +5%. -/
theorem c4_amended_witness :
    ((setPrice 0 100 "A" (1 / 20) 0).2).length = 1 ∧
    (∀ msg ∈ (setPrice 0 100 "A" (1 / 20) 0).2,
      msg.price = round2 (max (1 / 100) (100 * (1 + 1 / 20))) ∧ msg.symbol = "A") ∧
    (setPrice 0 100 "A" (1 / 20) 0).1 = max (1 / 100) (100 * (1 + 1 / 20)) :=
  c4_amended_setprice 0 100 "A" (1 / 20) 0

/-! ## Claim C2 -/

/-- C2 counterexample: with subscribers "a" and "b" both on topic "T" and
"a"'s notification callback throwing, `publish("T", 5)` never delivers to the
remaining subscriber "b": the uncaught exception aborts the broker's
`forEach` fan-out. -/
theorem c2_counterexample :
    "b" ∈ getSubscribers c2State "T" ∧
    ("b", "T", (5 : Nat)) ∉ (publishF (fun s => s == "a") c2State "T" 5).2.1 := by
  decide

/-- C2 (amended): a fault in one subscriber's notification callback is not
isolated — the fan-out delivers to the subscribers preceding the first
faulting subscriber in iteration order and to the faulting subscriber
itself, then aborts, so later subscribers receive nothing; the loop aborts
exactly when some subscriber faults, and `publish`'s fan-out events are the
fan-out of the topic's current subscriber list. -/
theorem c2_amended_fault_aborts {Msg : Type} (faults : SubId → Bool)
    (subs : List SubId) (t : Topic) (m : Msg) :
    (fanout faults subs t m).1 =
      ((subs.takeWhile (fun s => !faults s)) ++
        (subs.dropWhile (fun s => !faults s)).take 1).map (fun s => (s, t, m)) ∧
    (fanout faults subs t m).2 = subs.any faults ∧
    (∀ st : BrokerState Msg,
      (publishF faults st t m).2 = fanout faults (getSubscribers st t) t m) := by
  refine ⟨?_, ?_, ?_⟩
  · induction subs with
    | nil => simp [fanout]
    | cons s rest ih =>
        by_cases h : faults s
        · simp [fanout, h]
        · simp [fanout, h, ih]
  · induction subs with
    | nil => simp [fanout]
    | cons s rest ih =>
        by_cases h : faults s
        · simp [fanout, h]
        · simp [fanout, h, ih]
  · intro st
    cases hg : getEntry st.subscriptions t with
    | none => simp [publishF, hg, getSubscribers, fanout]
    | some l => simp [publishF, hg, getSubscribers]

/-! ## Claim C3 -/

section Reentrant

variable {Msg : Type}

theorem exec_rseq_nil (progs : SubId → List Action) (n : Nat) (st : RState Msg) :
    exec progs n st (.rseq []) = st := by
  cases n <;> rfl

theorem exec_rrecv_empty (progs : SubId → List Action) (hp : ∀ s, progs s = [])
    (n : Nat) (st : RState Msg) (s : SubId) (t : Topic) (m : Msg) (hn : 1 ≤ n) :
    exec progs n st (.rrecv s t m) = { st with log := st.log ++ [(s, t, m)] } := by
  obtain ⟨k, rfl⟩ : ∃ k, n = k + 1 := ⟨n - 1, by omega⟩
  show exec progs (k + 1) st (.rrecv s t m) = _
  simp only [exec, hp s, List.map_nil]
  exact exec_rseq_nil progs k _

theorem drop_cons_of_getElem? {α : Type} (l : List α) (i : Nat) (x : α)
    (h : l[i]? = some x) : l.drop i = x :: l.drop (i + 1) := by
  induction l generalizing i with
  | nil => simp at h
  | cons a as ih =>
      cases i with
      | zero =>
          simp only [List.getElem?_cons_zero, Option.some.injEq] at h
          subst h
          simp
      | succ i =>
          simp only [List.getElem?_cons_succ] at h
          simpa using ih i h

theorem exec_rloop_empty (progs : SubId → List Action) (hp : ∀ s, progs s = [])
    (t : Topic) (m : Msg) :
    ∀ (j n i : Nat) (st : RState Msg),
      j + 2 ≤ n →
      i + j = ((getEntry st.subs t).getD []).length →
      exec progs n st (.rloop t m i) =
        { st with log := st.log ++ ((((getEntry st.subs t).getD []).drop i).filterMap id).map (fun s => (s, t, m)) } := by
  intro j
  induction j with
  | zero =>
      intro n i st hn hi
      obtain ⟨k, rfl⟩ : ∃ k, n = k + 1 := ⟨n - 1, by omega⟩
      show exec progs (k + 1) st (.rloop t m i) = _
      simp only [exec]
      rw [if_neg (by omega)]
      have hdrop : ((getEntry st.subs t).getD []).drop i = [] :=
        List.drop_eq_nil_of_le (by omega)
      rw [hdrop]
      simp
  | succ j ih =>
      intro n i st hn hi
      obtain ⟨k, rfl⟩ : ∃ k, n = k + 1 := ⟨n - 1, by omega⟩
      show exec progs (k + 1) st (.rloop t m i) = _
      simp only [exec]
      rw [if_pos (by omega)]
      cases hx : ((getEntry st.subs t).getD [])[i]? with
      | none =>
          exfalso
          rw [List.getElem?_eq_none_iff] at hx
          omega
      | some x =>
          have hdi := drop_cons_of_getElem? _ i x hx
          cases x with
          | none =>
              show exec progs k st (RCall.rloop t m (i + 1)) = _
              rw [ih k (i + 1) st (by omega) (by omega), hdi]
              simp
          | some s =>
              show exec progs k (exec progs k st (RCall.rrecv s t m))
                  (RCall.rloop t m (i + 1)) = _
              rw [exec_rrecv_empty progs hp k st s t m (by omega)]
              rw [ih k (i + 1) { st with log := st.log ++ [(s, t, m)] } (by omega)
                (by show (i + 1) + j = ((getEntry st.subs t).getD []).length; omega), hdi]
              simp

theorem exec_rpub_empty (progs : SubId → List Action) (hp : ∀ s, progs s = [])
    (st : RState Msg) (t : Topic) (m : Msg) (n : Nat)
    (hn : ((getEntry st.subs t).getD []).length + 3 ≤ n) :
    exec progs n st (.rpub t m) =
      { st with hist := setEntry st.hist t m,
                log := st.log ++ (((getEntry st.subs t).getD []).filterMap id).map (fun s => (s, t, m)) } := by
  obtain ⟨k, rfl⟩ : ∃ k, n = k + 1 := ⟨n - 1, by omega⟩
  show exec progs (k + 1) st (.rpub t m) = _
  simp only [exec]
  cases hg : getEntry st.subs t with
  | none =>
      simp [hg]
  | some l =>
      have hk2 : l.length + 2 ≤ k := by
        rw [hg] at hn
        simp only [Option.getD_some] at hn
        omega
      have hi0 : (0 : Nat) + l.length =
          ((getEntry ({ st with hist := setEntry st.hist t m } : RState Msg).subs t).getD []).length := by
        simp [hg]
      exact (exec_rloop_empty progs hp t m l.length k 0
        ({ st with hist := setEntry st.hist t m }) hk2 hi0).trans (by simp [hg])

/-- C3 counterexample: subscriber "A" is the only member of topic "T"'s set
when `publish("T", 0)` is called, and "A"'s receive callback subscribes "B"
to "T".  The broker iterates the live `Set` (no snapshot), and the cache was
already updated, so "B" — absent from the set at call time — receives the
in-flight message twice: once as the replay inside `subscribe` and once when
the still-running `forEach` reaches the newly appended entry.  The delivery
set is not the call-time set, and the mid-fan-out subscribe affects the
in-flight publish, not only future ones. -/
theorem c3_counterexample :
    some "B" ∉ (getEntry c3Start.subs "T").getD [] ∧
    (exec c3Progs 10 c3Start (RCall.rpub "T" 0)).log =
      [("A", "T", 0), ("B", "T", 0), ("B", "T", 0)] := by
  decide

/-- C3 (amended): the broker iterates the live subscriber set rather than a
snapshot.  When no subscriber's callback re-enters the broker (all callback
programs are empty), `publish(t, m)` delivers exactly one `receive(t, m)` to
each member of `t`'s set as it existed at call time, in order, and updates
the cache; but a `subscribe` performed from inside a callback during the
fan-out is visible to the in-flight publish (see the counterexample), so
snapshot-before-iterate does not hold in general. -/
theorem c3_amended_live_iteration (progs : SubId → List Action)
    (hp : ∀ s, progs s = []) (st : RState Msg) (t : Topic) (m : Msg) (n : Nat)
    (hn : ((getEntry st.subs t).getD []).length + 3 ≤ n) :
    exec progs n st (.rpub t m) =
      { st with hist := setEntry st.hist t m,
                log := st.log ++ (((getEntry st.subs t).getD []).filterMap id).map (fun s => (s, t, m)) } :=
  exec_rpub_empty progs hp st t m n hn

/-- C3 witness: a no-callback publish on a bus whose "T" set is exactly
{"A"} logs the single delivery to "A" and caches the message. -/
theorem c3_amended_witness :
    exec (fun _ => ([] : List Action)) 4 c3Start (RCall.rpub "T" (7 : Nat)) =
      { c3Start with hist := setEntry c3Start.hist "T" 7,
                     log := c3Start.log ++ (((getEntry c3Start.subs "T").getD []).filterMap id).map (fun s => (s, "T", 7)) } :=
  c3_amended_live_iteration (fun _ => []) (fun _ => rfl) c3Start "T" 7 4 (by decide)

end Reentrant

end StockMarket
